import Mathlib

/-!
Shallow embedding of src/adapter_1.rs: an Adapter-pattern demonstration in
which a square peg is wrapped so it can be checked against a round hole.

Rust f64 is idealized as Option ℝ: `some x` is a real value computed
exactly, `none` is NaN.  Arithmetic is modelled exactly over ℝ with NaN
propagation; infinities and rounding are idealized away (no input of this
program produces them).  The Rust bool produced by the comparison
`self.radius >= peg.get_radius()` is modelled as a Prop; per IEEE-754 the
comparison is false whenever either operand is NaN, hence the `none`
cases of `fge` below.
-/

namespace Adapter1

noncomputable section

/-- Idealized f64: a real number computed exactly, or NaN (`none`). -/
abbrev F64 := Option ℝ

/-- IEEE-754 greater-or-equal on f64: false whenever either operand is NaN. -/
def fge : F64 → F64 → Prop
  | some a, some b => a ≥ b
  | _, _ => False

/-- f64 multiplication with NaN propagation. -/
def fmul : F64 → F64 → F64
  | some a, some b => some (a * b)
  | _, _ => none

/-- f64 division with NaN propagation.  Division by zero never occurs in
this program (the only divisor is the literal 2.0). -/
def fdiv : F64 → F64 → F64
  | some a, some b => if b = 0 then none else some (a / b)
  | _, _ => none

/-- f64::sqrt: NaN on NaN or negative input, exact real square root otherwise. -/
def fsqrt : F64 → F64
  | some a => if 0 ≤ a then some (Real.sqrt a) else none
  | none => none

/-- trait Circular, with fn get_radius(&self) -> f64. -/
class Circular (T : Type) where
  get_radius : T → F64

/-- struct RoundHole, holding radius: f64. -/
structure RoundHole where
  radius : F64

/-- RoundHole::new. -/
def RoundHole.new (radius : F64) : RoundHole := ⟨radius⟩

/-- RoundHole::fits, i.e. self.radius >= peg.get_radius(). -/
def RoundHole.fits {T : Type} [Circular T] (self : RoundHole) (peg : T) : Prop :=
  fge self.radius (Circular.get_radius peg)

/-- struct RoundPeg, holding radius: f64. -/
structure RoundPeg where
  radius : F64

/-- impl Circular for RoundPeg: returns the stored radius unchanged. -/
instance : Circular RoundPeg where
  get_radius p := p.radius

/-- struct SquarePeg, holding width: f64. -/
structure SquarePeg where
  width : F64

/-- SquarePeg::new. -/
def SquarePeg.new (width : F64) : SquarePeg := ⟨width⟩

/-- SquarePeg::get_width. -/
def SquarePeg.get_width (self : SquarePeg) : F64 := self.width

/-- struct SquarePegAdapter, wrapping one SquarePeg. -/
structure SquarePegAdapter where
  peg : SquarePeg

/-- SquarePegAdapter::new. -/
def SquarePegAdapter.new (peg : SquarePeg) : SquarePegAdapter := ⟨peg⟩

/-- impl Circular for SquarePegAdapter:
self.peg.get_width() * f64::sqrt(2.0) / 2.0. -/
instance : Circular SquarePegAdapter where
  get_radius self := fdiv (fmul self.peg.get_width (fsqrt (some 2))) (some 2)

/-- The hole constructed in run(): RoundHole::new(5.0). -/
def hole : RoundHole := RoundHole.new (some 5)

/-- The round peg constructed in run(): RoundPeg with radius 5.0. -/
def rpeg : RoundPeg := ⟨some 5⟩

/-- The adapter around the width-5.0 square peg constructed in run(). -/
def small_sqpeg_adapter : SquarePegAdapter := SquarePegAdapter.new (SquarePeg.new (some 5))

/-- The adapter around the width-10.0 square peg constructed in run(). -/
def large_sqpeg_adapter : SquarePegAdapter := SquarePegAdapter.new (SquarePeg.new (some 10))

/-- The three boolean values printed by run(), in order. -/
def run : List Prop :=
  [hole.fits rpeg, hole.fits small_sqpeg_adapter, ¬ hole.fits large_sqpeg_adapter]

/-! Helper lemmas shared by the claim theorems. -/

theorem fge_some_some (a b : ℝ) : fge (some a) (some b) ↔ a ≥ b := Iff.rfl

theorem fge_none_left (x : F64) : ¬ fge none x := by
  cases x <;> exact fun h => h

theorem fge_none_right (x : F64) : ¬ fge x none := by
  cases x <;> exact fun h => h

theorem get_radius_roundPeg (x : F64) : Circular.get_radius (RoundPeg.mk x) = x := rfl

theorem get_radius_adapter (w : ℝ) :
    Circular.get_radius (SquarePegAdapter.new (SquarePeg.new (some w)))
      = some (w * Real.sqrt 2 / 2) := by
  show fdiv (fmul (some w) (fsqrt (some 2))) (some 2) = _
  rw [show fsqrt (some 2) = some (Real.sqrt 2) from by norm_num [fsqrt]]
  show fdiv (some (w * Real.sqrt 2)) (some 2) = _
  norm_num [fdiv]

theorem fits_some (R : ℝ) {T : Type} [Circular T] (peg : T) (r : ℝ)
    (h : Circular.get_radius peg = some r) :
    (RoundHole.new (some R)).fits peg ↔ R ≥ r := by
  unfold RoundHole.fits RoundHole.new
  rw [h]
  exact Iff.rfl

theorem sqrt_two_le_two : Real.sqrt 2 ≤ 2 := by
  nlinarith [Real.sq_sqrt (show (0:ℝ) ≤ 2 by norm_num), Real.sqrt_nonneg 2]

theorem one_lt_sqrt_two : 1 < Real.sqrt 2 := by
  nlinarith [Real.sq_sqrt (show (0:ℝ) ≤ 2 by norm_num), Real.sqrt_nonneg 2]

/-! The claims. -/

/-- Claim C1: for every Hole with radius R and every value implementing the
Circular interface whose effective radius is the value r, `fits` holds
exactly when R ≥ r; in particular a tie R = r fits (inclusive comparison). -/
theorem C1_fits_inclusive (R r : ℝ) {T : Type} [Circular T] (peg : T)
    (h : Circular.get_radius peg = some r) :
    ((RoundHole.new (some R)).fits peg ↔ R ≥ r) ∧
      (R = r → (RoundHole.new (some R)).fits peg) :=
  ⟨fits_some R peg r h, fun he => (fits_some R peg r h).mpr (ge_of_eq he)⟩

theorem C1_fits_inclusive_witness :
    ((RoundHole.new (some 5)).fits (RoundPeg.mk (some 5)) ↔ (5:ℝ) ≥ 5) ∧
      ((5:ℝ) = 5 → (RoundHole.new (some 5)).fits (RoundPeg.mk (some 5))) :=
  C1_fits_inclusive 5 5 (RoundPeg.mk (some 5)) rfl

/-- Claim C2: for every SquarePegAdapter wrapping a SquarePeg of width w,
get_radius returns exactly w * sqrt(2) / 2, determined by the width alone. -/
theorem C2_adapter_radius (a : SquarePegAdapter) (w : ℝ)
    (h : a.peg.width = some w) :
    Circular.get_radius a = some (w * Real.sqrt 2 / 2) := by
  obtain ⟨⟨x⟩⟩ := a
  cases h
  exact get_radius_adapter w

theorem C2_adapter_radius_witness :
    Circular.get_radius small_sqpeg_adapter = some (5 * Real.sqrt 2 / 2) :=
  C2_adapter_radius small_sqpeg_adapter 5 rfl

/-- Claim C3: RoundPeg's get_radius returns its stored radius unchanged, and
consequently for every hole radius R and round-peg radius r, `fits` holds
exactly when r ≤ R. -/
theorem C3_roundPeg_radius :
    (∀ x : F64, Circular.get_radius (RoundPeg.mk x) = x) ∧
      ∀ R r : ℝ, ((RoundHole.new (some R)).fits (RoundPeg.mk (some r)) ↔ r ≤ R) :=
  ⟨fun _ => rfl, fun R r => fits_some R (RoundPeg.mk (some r)) r rfl⟩

/-- Claim C4: for every hole radius R and square width w wrapped in the
adapter, `fits` holds exactly when w * sqrt(2) / 2 ≤ R. -/
theorem C4_fits_adapter (R w : ℝ) :
    ((RoundHole.new (some R)).fits (SquarePegAdapter.new (SquarePeg.new (some w))) ↔
      w * Real.sqrt 2 / 2 ≤ R) :=
  fits_some R (SquarePegAdapter.new (SquarePeg.new (some w))) (w * Real.sqrt 2 / 2)
    (get_radius_adapter w)

/-- Claim C5: in the fixed demonstration run() with hole radius 5.0, the
round peg of radius 5.0 fits, the square peg of width 5.0 fits through the
adapter, and the square peg of width 10.0 does not fit. -/
theorem C5_run_scenarios :
    hole.fits rpeg ∧ hole.fits small_sqpeg_adapter ∧ ¬ hole.fits large_sqpeg_adapter := by
  refine ⟨(fits_some 5 rpeg 5 rfl).mpr le_rfl, ?_, ?_⟩
  · refine (fits_some 5 small_sqpeg_adapter (5 * Real.sqrt 2 / 2) (get_radius_adapter 5)).mpr ?_
    nlinarith [sqrt_two_le_two]
  · intro contra
    have h5 := (fits_some 5 large_sqpeg_adapter (10 * Real.sqrt 2 / 2) (get_radius_adapter 10)).mp contra
    nlinarith [one_lt_sqrt_two]

/-- Claim C6: negative inputs are not validated: for every hole with
non-negative radius R and every Circular value whose effective radius r is
negative, `fits` holds (the comparison is purely numeric). -/
theorem C6_negative_radius_fits (R r : ℝ) (hR : 0 ≤ R) (hr : r < 0)
    {T : Type} [Circular T] (peg : T) (h : Circular.get_radius peg = some r) :
    (RoundHole.new (some R)).fits peg :=
  (fits_some R peg r h).mpr (le_of_lt (lt_of_lt_of_le hr hR))

theorem C6_negative_radius_fits_witness :
    (RoundHole.new (some 0)).fits (RoundPeg.mk (some (-1))) :=
  C6_negative_radius_fits 0 (-1) le_rfl (by norm_num) (RoundPeg.mk (some (-1))) rfl

/-- Claim C7: the compatibility check and both get_radius implementations
are total and side-effect-free: for every f64 input (NaN included) each
get_radius yields a value, and `fits` is a two-valued predicate with no
failure outcome. -/
theorem C7_total :
    (∀ x : F64, ∃ y : F64, Circular.get_radius (RoundPeg.mk x) = y) ∧
      (∀ w : F64, ∃ y : F64, Circular.get_radius (SquarePegAdapter.new (SquarePeg.new w)) = y) ∧
      ∀ (R : F64) {T : Type} [Circular T] (peg : T),
        (RoundHole.new R).fits peg ∨ ¬ (RoundHole.new R).fits peg := by
  refine ⟨fun x => ⟨x, rfl⟩, fun w => ⟨_, rfl⟩, ?_⟩
  intro R T _ peg
  exact Classical.em _

/-- Claim C8: the adapter's get_radius is a pure function with no hidden
mutation: its result is fully determined by the wrapped square's width, so
two calls on the same adapter value yield the same result. -/
theorem C8_adapter_pure (a b : SquarePegAdapter)
    (h : a.peg.get_width = b.peg.get_width) :
    Circular.get_radius a = Circular.get_radius b := by
  show fdiv (fmul a.peg.get_width (fsqrt (some 2))) (some 2)
      = fdiv (fmul b.peg.get_width (fsqrt (some 2))) (some 2)
  rw [h]

theorem C8_adapter_pure_witness :
    Circular.get_radius small_sqpeg_adapter = Circular.get_radius small_sqpeg_adapter :=
  C8_adapter_pure small_sqpeg_adapter small_sqpeg_adapter rfl

/-- Claim C9: if the hole's radius or the peg's effective radius is NaN,
`fits` is false, because the IEEE-754 comparison is false whenever either
operand is NaN. -/
theorem C9_nan_fits_false :
    (∀ {T : Type} [Circular T] (peg : T), ¬ (RoundHole.new none).fits peg) ∧
      ∀ (R : F64) {T : Type} [Circular T] (peg : T),
        Circular.get_radius peg = none → ¬ (RoundHole.new R).fits peg := by
  constructor
  · intro T _ peg
    exact fge_none_left (Circular.get_radius peg)
  · intro R T _ peg h
    unfold RoundHole.fits RoundHole.new
    rw [h]
    exact fge_none_right R

theorem C9_nan_fits_false_witness :
    ¬ (RoundHole.new (some 5)).fits (RoundPeg.mk none) :=
  C9_nan_fits_false.2 (some 5) (RoundPeg.mk none) rfl

/-- Claim C10: monotonicity: for every peg with a fixed non-NaN effective
radius and non-NaN hole radii R1 ≤ R2, if the hole of radius R1 fits the
peg then so does the hole of radius R2. -/
theorem C10_monotone (r R1 R2 : ℝ) {T : Type} [Circular T] (peg : T)
    (h : Circular.get_radius peg = some r) (hR : R1 ≤ R2)
    (hfits : (RoundHole.new (some R1)).fits peg) :
    (RoundHole.new (some R2)).fits peg :=
  (fits_some R2 peg r h).mpr (le_trans ((fits_some R1 peg r h).mp hfits) hR)

theorem C10_monotone_witness :
    (RoundHole.new (some 6)).fits (RoundPeg.mk (some 5)) :=
  C10_monotone 5 5 6 (RoundPeg.mk (some 5)) rfl (by norm_num) (le_refl (5:ℝ))

end

end Adapter1
